import Mathlib

/-!
Verification of the call-argument resolution and lazy-value unpacking engine
of `jedi/inference/arguments.py`.

The syntax tree, the inference engine, the lazy-value library and the
analysis-issue collector are external collaborators; they are modelled as
parameters (`World`, `IterWorld`, `CallWorld`) exactly at the interface the
source uses.  The functions `unpackArglist`, `unpack`, `iterStar`,
`starStarDict`, `parseArgumentClinic`, `iterateArgumentClinic`,
`repackWrapperCore`, `tryIterDepths` and `getCallingNodes` are direct
translations of `unpack_arglist`, `TreeArguments.unpack`,
`_iterate_star_args`, `_star_star_dict`, `_parse_argument_clinic`,
`_iterate_argument_clinic`, `repack_with_argument_clinic`,
`try_iter_content` and `TreeArguments.get_calling_nodes`.
-/

/-- Parso syntax node: a leaf carries its node `type` tag and its source
text, an inner node carries its `type` tag and its children. -/
inductive PNode where
  | leaf (typ : String) (value : String)
  | node (typ : String) (children : List PNode)

/-- The `type` tag of a node (`node.type` in parso). -/
def PNode.typ : PNode → String
  | .leaf t _ => t
  | .node t _ => t

/-- The `children` attribute (empty for leaves). -/
def PNode.children : PNode → List PNode
  | .leaf _ _ => []
  | .node _ cs => cs

/-- The `value` attribute of a leaf (inner nodes have none; the source only
reads `.value` on leaves). -/
def PNode.value : PNode → String
  | .leaf _ v => v
  | .node _ _ => ""

/-- Parso operator leaves compare equal to strings (`child == ','`,
`child in ('*', '**')`): `Operator.__eq__` compares the leaf's value with
the string; other nodes and leaves compare by identity, hence `false`. -/
def PNode.eqOp (n : PNode) (s : String) : Bool :=
  match n with
  | .leaf t v => t == "operator" && v == s
  | .node _ _ => false

/-- A lazy value as produced by `unpack`: `LazyTreeValue(context, node)`,
`LazyKnownValue`, the generator-comprehension value (recording its
`entry_node` and `sync_comp_for_node`), `get_merged_lazy_value` of a list,
or an opaque lazy value handed over by a collaborator (iterator elements,
dict values). -/
inductive Lazy where
  | tree (node : PNode)
  | known (v : Nat)
  | comp (entry : PNode) (sync : PNode)
  | merged (vals : List Lazy)
  | ext (id : Nat)

/-- An analysis issue as sent to `analysis.add`: its kind string, the
offending node, and the data interpolated into the message (the callee's
declared name and the offending value). -/
structure Issue where
  kind : String
  node : PNode
  funcName : String
  value : Nat

/-- The issue `_iterate_star_args` reports for a non-iterable `*` target. -/
def mkStarIssue (f : String) (el : PNode) (v : Nat) : Issue :=
  ⟨"type-error-star", el, f, v⟩

/-- The issue `_star_star_dict` reports for a non-mapping `**` target. -/
def mkSSIssue (f : String) (el : PNode) (v : Nat) : Issue :=
  ⟨"type-error-star-star", el, f, v⟩

/-- Which of the three `_star_star_dict` branches a value falls into:
a `CompiledInstance` named `dict`, an `iterable.Sequence` with
`array_type == 'dict'` (with its `exact_key_items()`), or anything else. -/
inductive SSKind where
  | compiledDictInstance
  | dictSequence (items : List (String × Lazy))
  | other

/-- The collaborator interface `unpack` consumes: `context.infer_node`,
the truthiness of `value.py__getattribute__('__iter__')`, the presence and
result of `value.py__iter__` and the `_star_star_dict` classification. -/
structure World where
  inferNode : PNode → List Nat
  getattrIter : Nat → Bool
  pyIter : Nat → Option (List Lazy)
  ssKind : Nat → SSKind

/-- Translation of `_iterate_star_args(context, array, input_node, funcdef)`:
the reported issues (one `type-error-star` when
`py__getattribute__('__iter__')` is empty and a `funcdef` was supplied)
and the yielded lazy values (those of `py__iter__`, nothing when the
attribute is missing). -/
def iterStar (w : World) (v : Nat) (inputNode : PNode) (funcdef : Option String) :
    List Lazy × List Issue :=
  let issues :=
    if w.getattrIter v then []
    else
      match funcdef with
      | some f => [mkStarIssue f inputNode v]
      | none => []
  let vals :=
    match w.pyIter v with
    | none => []
    | some ls => ls
  (vals, issues)

/-- Translation of `_star_star_dict(context, array, input_node, funcdef)`. -/
def starStarDict (w : World) (v : Nat) (inputNode : PNode) (funcdef : Option String) :
    List (String × Lazy) × List Issue :=
  match w.ssKind v with
  | .compiledDictInstance => ([], [])
  | .dictSequence items => (items, [])
  | .other =>
      ([], match funcdef with
           | some f => [mkSSIssue f inputNode v]
           | none => [])

/-- Length of the longest list, the number of rounds `zip_longest` runs. -/
def maxLen (ls : List (List Lazy)) : Nat :=
  ls.foldr (fun l m => max l.length m) 0

/-- Columns of `zip_longest(*iterators)` with the `None` paddings already
dropped: column `i` holds, in iterator order, the `i`-th element of every
iterator that still has one (`[v for v in values if v is not None]`). -/
def zipLongestCols (ls : List (List Lazy)) : List (List Lazy) :=
  (List.range (maxLen ls)).map (fun i => ls.filterMap (fun l => l[i]?))

/-- Does `arglist.type == 'argument'` hold with a `*`/`**` first child
(the Python 3.5 `**arg`-is-an-argument case)? -/
def isStarArgument (al : PNode) : Bool :=
  al.typ == "argument" &&
    (match al.children with
     | c :: _ => c.eqOp "*" || c.eqOp "**"
     | [] => false)

/-- The child walk of `unpack_arglist`: commas are skipped, a bare `*`/`**`
operator consumes the following child (an exhausted iterator ends the
generator), an `argument` node starting with a star yields its payload
(the `assert len(child.children) == 2` aborts otherwise), anything else is
a plain element. -/
def unpackArglistChildren : List PNode → List (Nat × PNode)
  | [] => []
  | c :: rest =>
    if c.eqOp "," then unpackArglistChildren rest
    else if c.eqOp "*" || c.eqOp "**" then
      match rest with
      | nxt :: rest' => (c.value.length, nxt) :: unpackArglistChildren rest'
      | [] => []
    else if isStarArgument c then
      match c.children with
      | [st, x] => (st.value.length, x) :: unpackArglistChildren rest
      | _ => []
    else (0, c) :: unpackArglistChildren rest

/-- Translation of `unpack_arglist(arglist)`: `None` yields nothing, a node
that is neither an `arglist`/`testlist` nor a starred `argument` is yielded
whole as `(0, arglist)`, otherwise the children are walked. -/
def unpackArglist (argumentNode : Option PNode) : List (Nat × PNode) :=
  match argumentNode with
  | none => []
  | some al =>
    if al.typ == "arglist" || al.typ == "testlist" || isStarArgument al then
      unpackArglistChildren al.children
    else [(0, al)]

/-- The `sync_comp_for` extraction of the comprehension branch of
`unpack`: `sync_comp_for = el.children[1]`, unwrapped once more when it is
a `comp_for` node. -/
def syncOf (c1 : PNode) : PNode :=
  if c1.typ == "comp_for" then
    match c1.children with
    | _ :: s :: _ => s
    | _ => c1
  else c1

/-- The `star_count == 0` branch of the loop body of `unpack`: a
three-child `argument` node is buffered as a keyword pair, a two-child one
becomes a generator-comprehension value, and a plain node becomes a
`LazyTreeValue`. -/
def plainElemContrib (el : PNode) :
    List (Option String × Lazy) × List (String × Lazy) × List Issue :=
  match el with
  | .node "argument" [c0, _c1, c2] => ([], [(c0.value, Lazy.tree c2)], [])
  | .node "argument" [c0, c1] => ([(none, Lazy.comp c0 (syncOf c1))], [], [])
  | .node "argument" _ => ([], [], [])
  | _ => ([(none, Lazy.tree el)], [], [])

/-- Contribution of one `(star_count, el)` element inside
`TreeArguments.unpack`: the pairs yielded inline, the keyword pairs
appended to `named_args`, and the issues sent to `analysis.add`.  Mirrors
the three branches of the loop body: `star_count == 1` zips the per-array
`_iterate_star_args` iterators and merges each column, `star_count == 2`
expands every `_star_star_dict` item, and otherwise an `argument` node is
either buffered (`name=expr`, three children) or turned into a
generator-comprehension value, while a plain node becomes a
`LazyTreeValue`. -/
def elemContrib (w : World) (funcdef : Option String) (starCount : Nat) (el : PNode) :
    List (Option String × Lazy) × List (String × Lazy) × List Issue :=
  if starCount = 1 then
    let results := (w.inferNode el).map (fun a => iterStar w a el funcdef)
    ((zipLongestCols (results.map (·.1))).map (fun col => (none, Lazy.merged col)),
     [],
     (results.map (·.2)).flatten)
  else if starCount = 2 then
    let results := (w.inferNode el).map (fun d => starStarDict w d el funcdef)
    ((results.map (fun r => r.1.map (fun p => (some p.1, p.2)))).flatten,
     [],
     (results.map (·.2)).flatten)
  else plainElemContrib el

/-- The full element walk of `TreeArguments.unpack`: inline pairs in
element order, the `named_args` buffer in the order the keyword arguments
were encountered, and the issues in reporting order. -/
def unpackElems (w : World) (funcdef : Option String) :
    List (Nat × PNode) → List (Option String × Lazy) × List (String × Lazy) × List Issue
  | [] => ([], [], [])
  | (sc, el) :: rest =>
    let here := elemContrib w funcdef sc el
    let there := unpackElems w funcdef rest
    (here.1 ++ there.1, here.2.1 ++ there.2.1, here.2.2 ++ there.2.2)

/-- Translation of `TreeArguments.unpack(funcdef)`: walk the elements of
`unpack_arglist(self.argument_node)`, then yield the buffered keyword
pairs after everything else; the second component collects the issues
reported along the way. -/
def unpack (w : World) (argumentNode : Option PNode) (funcdef : Option String) :
    List (Option String × Lazy) × List Issue :=
  let r := unpackElems w funcdef (unpackArglist argumentNode)
  (r.1 ++ r.2.1.map (fun p => (some p.1, p.2)), r.2.2)

/-- Written to the spec's words, for comparison with `unpack`: the keyword
pairs (`name=expr` arguments) of an element list, in left-to-right source
order. -/
def specKeywordContribs (elems : List (Nat × PNode)) : List (String × Lazy) :=
  elems.filterMap (fun e =>
    if e.1 = 0 then
      match e.2 with
      | .node "argument" [c0, _c1, c2] => some (c0.value, Lazy.tree c2)
      | _ => none
    else none)

/-- Python's `\w` on the ASCII spec strings: a letter, digit or underscore. -/
def isWordChar (c : Char) : Bool := c.isAlphanum || c == '_'

/-- The `\**\w+` part of the clinic regex at the given position: the greedy
run of stars followed by a non-empty greedy run of word characters; returns
the star count, the word and the number of characters consumed. -/
def starsWordAt (s : List Char) : Option (Nat × String × Nat) :=
  let stars := (s.takeWhile (fun c => c == '*')).length
  let rest := s.drop stars
  let word := rest.takeWhile isWordChar
  if word.isEmpty then none
  else some (stars, String.mk word, stars + word.length)

/-- The prefixes `(?:(\[),? ?|, ?|)` of the word branch of the clinic regex,
as (consumed length, was the `[` group taken) in the backtracking order the
Python engine tries them; only prefixes whose literal characters are present
are listed. -/
def prefixCandidates (s : List Char) : List (Nat × Bool) :=
  match s with
  | '[' :: ',' :: ' ' :: _ => [(3, true), (2, true), (1, true), (0, false)]
  | '[' :: ',' :: _ => [(2, true), (1, true), (0, false)]
  | '[' :: ' ' :: _ => [(2, true), (1, true), (0, false)]
  | '[' :: _ => [(1, true), (0, false)]
  | ',' :: ' ' :: _ => [(2, false), (1, false), (0, false)]
  | ',' :: _ => [(1, false), (0, false)]
  | _ => [(0, false)]

/-- Backtracking over the prefix candidates: the first prefix after which
`\**\w+` matches wins, giving the captured bracket flag, the stars, the
word and the total consumed length. -/
def firstWordMatch (s : List Char) : List (Nat × Bool) → Option (Bool × Nat × String × Nat)
  | [] => none
  | (k, g1) :: rest =>
    match starsWordAt (s.drop k) with
    | some (stars, word, c) => some (g1, stars, word, k + c)
    | none => firstWordMatch s rest

/-- The `, ?/` branch of the clinic regex (a comma, an optional space, a
slash), preferred only after the word branch fails. -/
def slashMatch : List Char → Option Nat
  | ',' :: ' ' :: '/' :: _ => some 3
  | ',' :: '/' :: _ => some 2
  | _ => none

/-- Result of matching the clinic regex
`(?:(?:(\[),? ?|, ?|)(\**\w+)|, ?/)\]*` at the start of the remaining spec:
whether group 1 (the `[`) was captured, group 2 (stars and word, `none` for
the slash branch), and the length of group 0. -/
structure ClinicMatch where
  group1 : Bool
  group2 : Option (Nat × String)
  consumed : Nat
  deriving DecidableEq, Repr

/-- One `re.match` of the clinic regex: try the word branch with its prefix
backtracking, then the slash branch, then swallow the trailing `\]*` run. -/
def matchClinic (s : List Char) : Option ClinicMatch :=
  match firstWordMatch s (prefixCandidates s) with
  | some (g1, stars, word, k) =>
      some ⟨g1, some (stars, word), k + ((s.drop k).takeWhile (fun c => c == ']')).length⟩
  | none =>
      match slashMatch s with
      | some k => some ⟨false, none, k + ((s.drop k).takeWhile (fun c => c == ']')).length⟩
      | none => none

/-- A successful `\**\w+` match consumes at least its one-character word. -/
theorem starsWordAt_pos {s : List Char} {st : Nat} {w : String} {c : Nat}
    (h : starsWordAt s = some (st, w, c)) : 0 < c := by
  simp only [starsWordAt] at h
  split at h
  · exact absurd h (by simp)
  · rename_i hne
    simp only [Option.some.injEq, Prod.mk.injEq] at h
    obtain ⟨h1, h2, h3⟩ := h
    have : ((s.drop ((s.takeWhile (fun c => c == '*')).length)).takeWhile isWordChar).length ≠ 0 := by
      simpa [List.isEmpty_iff_length_eq_zero] using hne
    omega

/-- A successful word-branch match consumes at least one character. -/
theorem firstWordMatch_pos {s : List Char} {cands : List (Nat × Bool)}
    {g1 : Bool} {st : Nat} {w : String} {n : Nat}
    (h : firstWordMatch s cands = some (g1, st, w, n)) : 0 < n := by
  induction cands with
  | nil => simp [firstWordMatch] at h
  | cons kg rest ih =>
    obtain ⟨k, g⟩ := kg
    unfold firstWordMatch at h
    rcases hsw : starsWordAt (s.drop k) with _ | ⟨st', w', c'⟩
    · rw [hsw] at h
      exact ih h
    · rw [hsw] at h
      simp only [Option.some.injEq, Prod.mk.injEq] at h
      have := starsWordAt_pos hsw
      omega

/-- A successful slash-branch match consumes at least two characters. -/
theorem slashMatch_pos {s : List Char} {k : Nat} (h : slashMatch s = some k) : 0 < k := by
  unfold slashMatch at h
  split at h <;> simp_all <;> omega

/-- Every successful match of the clinic regex consumes at least one
character, so the parse loop always advances. -/
theorem matchClinic_pos {s : List Char} {m : ClinicMatch}
    (h : matchClinic s = some m) : 0 < m.consumed := by
  unfold matchClinic at h
  rcases hf : firstWordMatch s (prefixCandidates s) with _ | ⟨g1, st, w, k⟩
  · rw [hf] at h
    rcases hs : slashMatch s with _ | k
    · rw [hs] at h; exact absurd h (by simp)
    · rw [hs] at h
      simp only [Option.some.injEq] at h
      have := slashMatch_pos hs
      subst h
      simp only []
      omega
  · rw [hf] at h
    simp only [Option.some.injEq] at h
    have := firstWordMatch_pos hf
    subst h
    simp only []
    omega

/-- One tuple yielded by `_parse_argument_clinic`:
`(word, optional, allow_kwargs, stars)`. -/
structure ClinicParam where
  name : String
  optional : Bool
  allow_kwargs : Bool
  stars : Nat
  deriving DecidableEq, Repr

/-- Translation of the `while string:` loop of `_parse_argument_clinic`,
carrying the sticky `allow_kwargs` and `optional` state: a failed
`re.match` is the Python `AttributeError` crash (`none`); a slash match
turns `allow_kwargs` on; otherwise a parameter is yielded with the current
flags (`optional` already absorbed from group 1) and stars turn
`allow_kwargs` on for the rest. -/
def parseClinicLoop (s : List Char) (allowKwargs : Bool) (opt : Bool) : Option (List ClinicParam) :=
  if hs : s = [] then some []
  else
    match h : matchClinic s with
    | none => none
    | some m =>
      match m.group2 with
      | none => parseClinicLoop (s.drop m.consumed) true opt
      | some (stars, word) =>
        (parseClinicLoop (s.drop m.consumed) (allowKwargs || decide (0 < stars)) (opt || m.group1)).map
          (fun ps => ⟨word, opt || m.group1, allowKwargs, stars⟩ :: ps)
  termination_by s.length
  decreasing_by
  all_goals
    have hc := matchClinic_pos h
    have hlen : 0 < s.length := List.length_pos.mpr hs
    simp only [List.length_drop]
    omega

/-- Translation of `_parse_argument_clinic(string)`: run the loop on the
spec's characters with both sticky flags off; `none` models the
`AttributeError` crash on a spec the regex cannot consume. -/
def parseArgumentClinic (spec : String) : Option (List ClinicParam) :=
  parseClinicLoop spec.data false false

/-- Unfolding lemma for one successful iteration of the parse loop. -/
theorem parseClinicLoop_step {s : List Char} {m : ClinicMatch} {kw opt : Bool}
    (hne : s ≠ []) (hm : matchClinic s = some m) :
    parseClinicLoop s kw opt =
      match m.group2 with
      | none => parseClinicLoop (s.drop m.consumed) true opt
      | some (stars, word) =>
        (parseClinicLoop (s.drop m.consumed) (kw || decide (0 < stars)) (opt || m.group1)).map
          (fun ps => ⟨word, opt || m.group1, kw, stars⟩ :: ps) := by
  rw [parseClinicLoop.eq_def, dif_neg hne]
  split
  · next heq => rw [hm] at heq; exact absurd heq (by simp)
  · next m' heq =>
    rw [hm] at heq
    injection heq with heq
    subst heq
    rfl

/-- A failed `re.match` on a non-empty remainder crashes the parse. -/
theorem parseClinicLoop_crash {s : List Char} {kw opt : Bool}
    (hne : s ≠ []) (hm : matchClinic s = none) :
    parseClinicLoop s kw opt = none := by
  rw [parseClinicLoop.eq_def, dif_neg hne]
  split
  · rfl
  · next m' heq => rw [hm] at heq; exact absurd heq (by simp)

/-- An exhausted spec ends the loop. -/
theorem parseClinicLoop_nil {kw opt : Bool} : parseClinicLoop [] kw opt = some [] := by
  rw [parseClinicLoop.eq_def]
  rfl

/-- When the sticky `allow_kwargs` state is already on, every parameter the
rest of the parse yields carries `allow_kwargs = true`. -/
theorem parseClinicLoop_kwAll {s : List Char} {kw opt : Bool} {ps : List ClinicParam}
    (h : parseClinicLoop s kw opt = some ps) (hkw : kw = true) :
    ∀ p ∈ ps, p.allow_kwargs = true := by
  induction s, kw, opt using parseClinicLoop.induct generalizing ps with
  | case1 kw opt =>
    rw [parseClinicLoop_nil] at h
    injection h with h
    subst h
    simp
  | case2 s kw opt hne hm =>
    rw [parseClinicLoop_crash hne hm] at h
    exact absurd h (by simp)
  | case3 s kw opt hne m hm hg ih =>
    rw [parseClinicLoop_step hne hm, hg] at h
    exact ih h rfl
  | case4 s kw opt hne m hm stars word hg ih =>
    subst hkw
    rw [parseClinicLoop_step hne hm, hg] at h
    rw [Option.map_eq_some'] at h
    obtain ⟨ps', hrec, hcons⟩ := h
    subst hcons
    intro p hp
    rcases List.mem_cons.mp hp with hp | hp
    · subst hp
      rfl
    · exact ih hrec rfl p hp

/-- When the sticky `optional` state is already on, every parameter the
rest of the parse yields carries `optional = true`. -/
theorem parseClinicLoop_optAll {s : List Char} {kw opt : Bool} {ps : List ClinicParam}
    (h : parseClinicLoop s kw opt = some ps) (hopt : opt = true) :
    ∀ p ∈ ps, p.optional = true := by
  induction s, kw, opt using parseClinicLoop.induct generalizing ps with
  | case1 kw opt =>
    rw [parseClinicLoop_nil] at h
    injection h with h
    subst h
    simp
  | case2 s kw opt hne hm =>
    rw [parseClinicLoop_crash hne hm] at h
    exact absurd h (by simp)
  | case3 s kw opt hne m hm hg ih =>
    subst hopt
    rw [parseClinicLoop_step hne hm, hg] at h
    exact ih h rfl
  | case4 s kw opt hne m hm stars word hg ih =>
    subst hopt
    rw [parseClinicLoop_step hne hm, hg] at h
    rw [Option.map_eq_some'] at h
    obtain ⟨ps', hrec, hcons⟩ := h
    subst hcons
    intro p hp
    rcases List.mem_cons.mp hp with hp | hp
    · subst hp
      rfl
    · exact ih hrec rfl p hp

/-- Stickiness of the parsed flags: in any parse result, a parameter that is
optional is followed only by optional parameters, one that allows keywords
is followed only by keyword-allowing parameters, and a starred parameter is
followed only by keyword-allowing parameters. -/
theorem parseClinicLoop_sticky {s : List Char} {kw opt : Bool} {ps : List ClinicParam}
    (h : parseClinicLoop s kw opt = some ps) :
    ∀ l1 p l2, ps = l1 ++ p :: l2 →
      (p.optional = true → ∀ q ∈ l2, q.optional = true) ∧
      (p.allow_kwargs = true → ∀ q ∈ l2, q.allow_kwargs = true) ∧
      (0 < p.stars → ∀ q ∈ l2, q.allow_kwargs = true) := by
  induction s, kw, opt using parseClinicLoop.induct generalizing ps with
  | case1 kw opt =>
    rw [parseClinicLoop_nil] at h
    injection h with h
    subst h
    intro l1 p l2 hsplit
    exact absurd hsplit (by simp)
  | case2 s kw opt hne hm =>
    rw [parseClinicLoop_crash hne hm] at h
    exact absurd h (by simp)
  | case3 s kw opt hne m hm hg ih =>
    rw [parseClinicLoop_step hne hm, hg] at h
    exact ih h
  | case4 s kw opt hne m hm stars word hg ih =>
    rw [parseClinicLoop_step hne hm, hg] at h
    rw [Option.map_eq_some'] at h
    obtain ⟨ps', hrec, hcons⟩ := h
    subst hcons
    intro l1 p l2 hsplit
    cases l1 with
    | nil =>
      simp only [List.nil_append, List.cons.injEq] at hsplit
      obtain ⟨hp, hl2⟩ := hsplit
      subst hp
      subst hl2
      refine ⟨fun hoptp => ?_, fun hkwp => ?_, fun hstars => ?_⟩
      · exact parseClinicLoop_optAll hrec (by simp_all)
      · exact parseClinicLoop_kwAll hrec (by simp_all)
      · exact parseClinicLoop_kwAll hrec (by simp [hstars])
    | cons q l1' =>
      simp only [List.cons_append, List.cons.injEq] at hsplit
      exact ih hrec l1' p l2 hsplit.2

/-- Control-flow outcomes of clinic matching: the recoverable `ParamIssue`,
the `NotImplementedError` for a `**` clinic parameter, and the
`AttributeError` with which `_parse_argument_clinic` crashes on a spec its
regex cannot consume. -/
inductive ClinicErr where
  | paramIssue
  | notImplemented
  | attributeError
  deriving DecidableEq, Repr

/-- One value set yielded by `_iterate_argument_clinic`: either the
`ValueSet([FakeSequence(state, 'tuple', lazy_values)])` produced for a `*`
parameter (holding the collected lazy values, each an inferred value set),
or a plain inferred value set. -/
inductive ClinicYield where
  | tupleOf (lazies : List (List Nat))
  | set (vs : List Nat)
  deriving DecidableEq, Repr

/-- Translation of `_iterate_argument_clinic(inference_state, arguments,
parameters)` consuming the unpacked `(key, argument)` stream (each argument
carried as its inferred value set, since the matcher only ever calls
`infer()`): a `*` parameter greedily collects unnamed entries and pushes
the first keyed one back, a `**` parameter is unimplemented, a plain
parameter pulls one entry and raises `ParamIssue` on a keyword entry, a
missing non-optional entry, or an unresolvable non-optional entry. -/
def iterateArgumentClinic :
    List ClinicParam → List (Option String × List Nat) → Except ClinicErr (List ClinicYield)
  | [], _ => .ok []
  | p :: ps, args =>
    if p.stars = 1 then
      (iterateArgumentClinic ps (args.dropWhile (fun a => a.1.isNone))).map
        (fun ys => .tupleOf ((args.takeWhile (fun a => a.1.isNone)).map (·.2)) :: ys)
    else if p.stars = 2 then .error .notImplemented
    else
      match args with
      | [] =>
        if !p.optional then .error .paramIssue
        else (iterateArgumentClinic ps []).map (fun ys => .set [] :: ys)
      | (some _, _) :: _ => .error .paramIssue
      | (none, vs) :: rest =>
        if vs.isEmpty && !p.optional then .error .paramIssue
        else (iterateArgumentClinic ps rest).map (fun ys => .set vs :: ys)

/-- Translation of the `wrapper` closure of `repack_with_argument_clinic`:
run clinic matching against the already-parsed parameter list; a
`ParamIssue` is caught and replaced by `NO_VALUES` (the empty value set)
without calling the wrapped function, any other outcome is passed on. -/
def repackWrapperCore (params : List ClinicParam)
    (func : List ClinicYield → List Nat)
    (args : List (Option String × List Nat)) : Except ClinicErr (List Nat) :=
  match iterateArgumentClinic params args with
  | .ok ys => .ok (func ys)
  | .error .paramIssue => .ok []
  | .error e => .error e

/-- Setting up clinic matching for a spec string and matching an argument
stream against it: `repack_with_argument_clinic` first parses the spec (an
unparseable spec is the `AttributeError` crash), then iterates the clinic
parameters against the stream. -/
def runArgumentClinic (spec : String) (args : List (Option String × List Nat)) :
    Except ClinicErr (List ClinicYield) :=
  match parseArgumentClinic spec with
  | none => .error .attributeError
  | some ps => iterateArgumentClinic ps args

/-- The iteration interface `try_iter_content` consumes: `py__iter__` on a
value (absent or a list of lazy values) and `infer()` on a lazy value. -/
structure IterWorld where
  pyIter : Nat → Option (List Nat)
  inferL : Nat → List Nat

/-- Translation of `try_iter_content(types, depth)`, instrumented to return
the depths at which its body runs: the source procedure returns `None`, so
the recursion structure is recorded instead — `depth > 10` descends no
further and contributes nothing, otherwise the call's own depth is recorded
and every lazy element of every iterable value is recursed into at
`depth + 1`. -/
def tryIterDepths (w : IterWorld) (types : List Nat) (depth : Nat) : List Nat :=
  if h : depth > 10 then []
  else
    depth :: (types.map (fun typ =>
      match w.pyIter typ with
      | none => []
      | some lazies =>
        (lazies.map (fun l => tryIterDepths w (w.inferL l) (depth + 1))).flatten)).flatten
  termination_by 11 - depth
  decreasing_by omega

/-- Outcome of `TreeNameDefinition(context, name).goto()` followed by the
param checks in `get_calling_nodes`: more or fewer than one name, not a
`ParamName`, a `DynamicExecutedParams` param, a param with `var_args None`,
or a param forwarding to another `Arguments` identity. -/
inductive GotoRes (n : Nat) where
  | notSingle
  | notParam
  | dynamicParam
  | noVarArgs
  | varArgs (next : Fin n)

/-- Is this node a `tree.Name` (a leaf of type `name`)? -/
def PNode.isNameLeaf : PNode → Bool
  | .leaf t _ => t == "name"
  | .node _ _ => false

/-- Translation of `TreeArguments._as_tree_tuple_objects`: each
`unpack_arglist` element, with a three-child `argument` node split into its
name and default (`argument.children[::2]`). -/
def asTreeTupleObjects (argumentNode : Option PNode) : List (PNode × Option PNode × Nat) :=
  (unpackArglist argumentNode).map (fun e =>
    match e.2 with
    | .node "argument" [c0, _c1, c2] => (c0, some c2, e.1)
    | arg => (arg, none, e.1))

/-- Translation of `TreeArguments.iter_calling_names_with_star`: the starred
elements that are plain names, in syntactic order. -/
def iterCallingNamesWithStar (argumentNode : Option PNode) : List PNode :=
  (asTreeTupleObjects argumentNode).filterMap (fun t =>
    if t.2.2 ≠ 0 && t.1.isNameLeaf then some t.1 else none)

/-- A world of `Arguments` identities for `get_calling_nodes`: there are
`n` of them; each has its variant flag, its provenance nodes, its context,
and the goto-resolution of a calling name inside it (the collaborator
side of `TreeNameDefinition.goto` and `ParamName.get_param`). -/
structure CallWorld (n : Nat) where
  isTree : Fin n → Bool
  argumentNode : Fin n → Option PNode
  trailer : Fin n → Option PNode
  ctx : Fin n → Nat
  resolve : Fin n → PNode → GotoRes n

/-- What one pass of the inner `for calling_name in reversed(...)` loop of
`get_calling_nodes` does: every branch of its body breaks or returns, so
only the first element of the reversed name list is ever examined. -/
inductive StepOut (n : Nat) where
  | fallthrough
  | returnEmpty
  | advance (next : Fin n)

/-- The inner loop of `get_calling_nodes` on the current `Arguments`:
no starred calling name, an ambiguous goto, a non-param name or a param
without `var_args` fall through (the `while` then exits, since the current
identity was just appended); a `DynamicExecutedParams` param returns `[]`
immediately; otherwise the walk advances to the param's `var_args`. -/
def innerStep {n : Nat} (w : CallWorld n) (a : Fin n) : StepOut n :=
  match (iterCallingNamesWithStar (w.argumentNode a)).reverse with
  | [] => .fallthrough
  | nm :: _ =>
    match w.resolve a nm with
    | .notSingle => .fallthrough
    | .notParam => .fallthrough
    | .dynamicParam => .returnEmpty
    | .noVarArgs => .fallthrough
    | .varArgs nxt => .advance nxt

/-- The result construction at the end of `get_calling_nodes`: the
argument-list node wrapped with its context, else the trailer node, else
nothing. -/
def finishNodes {n : Nat} (w : CallWorld n) (a : Fin n) : List (Nat × PNode) :=
  match w.argumentNode a with
  | some nd => [(w.ctx a, nd)]
  | none =>
    match w.trailer a with
    | some t => [(w.ctx a, t)]
    | none => []

/-- Inserting an unvisited identity strictly shrinks the set of identities
still available to visit, which bounds the `while` loop of
`get_calling_nodes` by the number of distinct `Arguments` identities. -/
theorem visitedMeasureLt {n : Nat} {visited : List (Fin n)} {cur : Fin n}
    (h : cur ∉ visited) :
    (Finset.univ \ (visited ++ [cur]).toFinset).card <
      (Finset.univ \ visited.toFinset).card := by
  have h1 : (visited ++ [cur]).toFinset = insert cur visited.toFinset := by
    rw [List.toFinset_append]
    simp [Finset.union_comm, Finset.insert_eq]
  rw [h1]
  apply Finset.card_lt_card
  rw [Finset.ssubset_iff_of_subset
    (Finset.sdiff_subset_sdiff (Finset.Subset.refl _) (Finset.subset_insert _ _))]
  refine ⟨cur, ?_, ?_⟩
  · simp [List.mem_toFinset, h]
  · simp

/-- Translation of the `while arguments not in old_arguments_list:` loop of
`TreeArguments.get_calling_nodes`, with the visited list explicit. -/
def getCallingNodesLoop {n : Nat} (w : CallWorld n) (visited : List (Fin n)) (cur : Fin n) :
    List (Nat × PNode) :=
  if h : cur ∈ visited then finishNodes w cur
  else if w.isTree cur then
    match innerStep w cur with
    | .returnEmpty => []
    | .advance nxt => getCallingNodesLoop w (visited ++ [cur]) nxt
    | .fallthrough => finishNodes w cur
  else finishNodes w cur
  termination_by (Finset.univ \ visited.toFinset).card
  decreasing_by exact visitedMeasureLt h

/-- Translation of `TreeArguments.get_calling_nodes()`: start the walk at
the receiver with an empty visited list. -/
def getCallingNodes {n : Nat} (w : CallWorld n) (start : Fin n) : List (Nat × PNode) :=
  getCallingNodesLoop w [] start

/-- Above the ceiling the guard returns at once: nothing is recorded, no
error is raised. -/
theorem tryIterDepths_stop {w : IterWorld} {types : List Nat} {depth : Nat}
    (h : 10 < depth) : tryIterDepths w types depth = [] := by
  rw [tryIterDepths.eq_def, dif_pos h]

/-- Unfolding of a call that passes the depth guard. -/
theorem tryIterDepths_go {w : IterWorld} {types : List Nat} {depth : Nat}
    (h : ¬ 10 < depth) :
    tryIterDepths w types depth =
      depth :: (types.map (fun typ =>
        match w.pyIter typ with
        | none => []
        | some lazies =>
          (lazies.map (fun l => tryIterDepths w (w.inferL l) (depth + 1))).flatten)).flatten := by
  rw [tryIterDepths.eq_def, dif_neg h]

/-- Every depth at which `try_iter_content` actually runs its body is at
most the ceiling 10. -/
theorem tryIterDepths_le (w : IterWorld) (types : List Nat) (depth : Nat) :
    ∀ d ∈ tryIterDepths w types depth, d ≤ 10 := by
  induction types, depth using tryIterDepths.induct w with
  | case1 types depth hd =>
    rw [tryIterDepths_stop hd]
    simp
  | case2 types depth hd ih =>
    rw [tryIterDepths_go hd]
    intro d hd'
    rcases List.mem_cons.mp hd' with hd' | hd'
    · omega
    · rw [List.mem_flatten] at hd'
      obtain ⟨inner, hinner, hdin⟩ := hd'
      rw [List.mem_map] at hinner
      obtain ⟨typ, _, hty⟩ := hinner
      subst hty
      rcases hpy : w.pyIter typ with _ | lazies
      · rw [hpy] at hdin
        exact absurd hdin (by simp)
      · rw [hpy] at hdin
        rw [List.mem_flatten] at hdin
        obtain ⟨inner2, hinner2, hdin2⟩ := hdin
        rw [List.mem_map] at hinner2
        obtain ⟨l, _, hl⟩ := hinner2
        subst hl
        exact ih l d hdin2

/-- A revisited identity exits the `while` loop and finishes with the
current `Arguments`. -/
theorem gcnLoop_visited {n : Nat} {w : CallWorld n} {visited : List (Fin n)} {cur : Fin n}
    (h : cur ∈ visited) :
    getCallingNodesLoop w visited cur = finishNodes w cur := by
  rw [getCallingNodesLoop.eq_def, dif_pos h]

/-- A non-`TreeArguments` current value breaks out of the loop. -/
theorem gcnLoop_notTree {n : Nat} {w : CallWorld n} {visited : List (Fin n)} {cur : Fin n}
    (h : cur ∉ visited) (ht : ¬ w.isTree cur = true) :
    getCallingNodesLoop w visited cur = finishNodes w cur := by
  rw [getCallingNodesLoop.eq_def, dif_neg h, if_neg ht]

/-- A fall-through of the inner name loop ends the walk at the current
identity (it was just appended, so the `while` condition now fails). -/
theorem gcnLoop_fallthrough {n : Nat} {w : CallWorld n} {visited : List (Fin n)} {cur : Fin n}
    (h : cur ∉ visited) (ht : w.isTree cur = true) (hs : innerStep w cur = .fallthrough) :
    getCallingNodesLoop w visited cur = finishNodes w cur := by
  rw [getCallingNodesLoop.eq_def, dif_neg h, if_pos ht, hs]

/-- A `DynamicExecutedParams` param returns the empty result at once. -/
theorem gcnLoop_dynamic {n : Nat} {w : CallWorld n} {visited : List (Fin n)} {cur : Fin n}
    (h : cur ∉ visited) (ht : w.isTree cur = true) (hs : innerStep w cur = .returnEmpty) :
    getCallingNodesLoop w visited cur = [] := by
  rw [getCallingNodesLoop.eq_def, dif_neg h, if_pos ht, hs]

/-- Following `param.var_args` advances the walk with the current identity
recorded as visited. -/
theorem gcnLoop_advance {n : Nat} {w : CallWorld n} {visited : List (Fin n)} {cur nxt : Fin n}
    (h : cur ∉ visited) (ht : w.isTree cur = true) (hs : innerStep w cur = .advance nxt) :
    getCallingNodesLoop w visited cur = getCallingNodesLoop w (visited ++ [cur]) nxt := by
  rw [getCallingNodesLoop.eq_def, dif_neg h, if_pos ht, hs]


/-- An operator leaf that compares equal to a string has that string as its
value. -/
theorem eqOp_value {c : PNode} {s : String} (h : c.eqOp s = true) : c.value = s := by
  rcases c with ⟨t, v⟩ | ⟨t, cs⟩ <;> simp [PNode.eqOp] at h <;> simp [PNode.value, h]

/-- Star counts produced by the child walk are only ever 0, 1 or 2 (the
lengths of `*` and `**`). -/
theorem unpackArglistChildren_starCounts (cs : List PNode) :
    ∀ e ∈ unpackArglistChildren cs, e.1 = 0 ∨ e.1 = 1 ∨ e.1 = 2 := by
  induction cs using unpackArglistChildren.induct with
  | case1 => simp [unpackArglistChildren]
  | case2 c rest hc ih =>
    intro e he
    unfold unpackArglistChildren at he
    rw [if_pos hc] at he
    exact ih e he
  | case3 c hc hstar nxt tail ih =>
    intro e he
    unfold unpackArglistChildren at he
    rw [if_neg hc, if_pos hstar] at he
    rcases List.mem_cons.mp he with he | he
    · subst he
      rcases Bool.or_eq_true_iff.mp hstar with hs | hs
      · rw [eqOp_value hs]
        show "*".length = 0 ∨ "*".length = 1 ∨ "*".length = 2
        decide
      · rw [eqOp_value hs]
        show "**".length = 0 ∨ "**".length = 1 ∨ "**".length = 2
        decide
    · exact ih e he
  | case4 c hc hstar =>
    intro e he
    unfold unpackArglistChildren at he
    rw [if_neg hc, if_pos hstar] at he
    exact absurd he (by simp)
  | case5 c rest hc hstar harg st x hch ih =>
    intro e he
    unfold unpackArglistChildren at he
    rw [if_neg hc, if_neg hstar, if_pos harg, hch] at he
    rcases List.mem_cons.mp he with he | he
    · subst he
      have hfirst : st.eqOp "*" = true ∨ st.eqOp "**" = true := by
        simp only [isStarArgument, Bool.and_eq_true] at harg
        rw [hch] at harg
        exact Bool.or_eq_true_iff.mp harg.2
      rcases hfirst with hs | hs
      · rw [eqOp_value hs]
        show "*".length = 0 ∨ "*".length = 1 ∨ "*".length = 2
        decide
      · rw [eqOp_value hs]
        show "**".length = 0 ∨ "**".length = 1 ∨ "**".length = 2
        decide
    · exact ih e he
  | case6 c rest hc hstar harg hch =>
    intro e he
    unfold unpackArglistChildren at he
    rw [if_neg hc, if_neg hstar, if_pos harg] at he
    rcases hcs : c.children with _ | ⟨a, cs1⟩
    · rw [hcs] at he
      exact absurd he (by simp)
    · rcases cs1 with _ | ⟨b, cs2⟩
      · rw [hcs] at he
        exact absurd he (by simp)
      · rcases cs2 with _ | _
        · exact absurd hcs (by intro hcontra; exact hch a b hcontra)
        · rw [hcs] at he
          exact absurd he (by simp)
  | case7 c rest hc hstar harg ih =>
    intro e he
    unfold unpackArglistChildren at he
    rw [if_neg hc, if_neg hstar, if_neg harg] at he
    rcases List.mem_cons.mp he with he | he
    · subst he
      simp
    · exact ih e he

/-- Star counts of the elements of `unpack_arglist` are only 0, 1 or 2. -/
theorem unpackArglist_starCounts (nodeOpt : Option PNode) :
    ∀ e ∈ unpackArglist nodeOpt, e.1 = 0 ∨ e.1 = 1 ∨ e.1 = 2 := by
  rcases nodeOpt with _ | al
  · simp [unpackArglist]
  · rw [unpackArglist]
    split
    · exact unpackArglistChildren_starCounts al.children
    · simp

/-- The element walk distributes over concatenation of element lists: each
element's contribution is independent. -/
theorem unpackElems_append (w : World) (fd : Option String) (l1 l2 : List (Nat × PNode)) :
    unpackElems w fd (l1 ++ l2) =
      ((unpackElems w fd l1).1 ++ (unpackElems w fd l2).1,
       (unpackElems w fd l1).2.1 ++ (unpackElems w fd l2).2.1,
       (unpackElems w fd l1).2.2 ++ (unpackElems w fd l2).2.2) := by
  induction l1 with
  | nil => simp [unpackElems]
  | cons e rest ih =>
    obtain ⟨sc, el⟩ := e
    simp [unpackElems, ih]

/-- The in-order keyword extraction distributes over concatenation. -/
theorem specKeywordContribs_append (l1 l2 : List (Nat × PNode)) :
    specKeywordContribs (l1 ++ l2) = specKeywordContribs l1 ++ specKeywordContribs l2 := by
  simp [specKeywordContribs, List.filterMap_append]

/-- A `star_count == 0` element buffers exactly its keyword extraction. -/
theorem plainElemContrib_named (el : PNode) :
    (plainElemContrib el).2.1 = specKeywordContribs [(0, el)] := by
  unfold plainElemContrib
  split <;> simp_all [specKeywordContribs]

/-- Any single element buffers exactly its keyword extraction. -/
theorem elemContrib_named (w : World) (fd : Option String) (sc : Nat) (el : PNode)
    (hsc : sc = 0 ∨ sc = 1 ∨ sc = 2) :
    (elemContrib w fd sc el).2.1 = specKeywordContribs [(sc, el)] := by
  rcases hsc with h | h | h <;> subst h
  · rw [elemContrib, if_neg (by omega), if_neg (by omega)]
    exact plainElemContrib_named el
  · rw [elemContrib, if_pos rfl]
    simp [specKeywordContribs]
  · rw [elemContrib, if_neg (by omega), if_pos rfl]
    simp [specKeywordContribs]

/-- The `named_args` buffer of the element walk is exactly the in-order
keyword extraction of the element list. -/
theorem unpackElems_named (w : World) (fd : Option String) (elems : List (Nat × PNode))
    (hsc : ∀ e ∈ elems, e.1 = 0 ∨ e.1 = 1 ∨ e.1 = 2) :
    (unpackElems w fd elems).2.1 = specKeywordContribs elems := by
  induction elems with
  | nil => simp [unpackElems, specKeywordContribs]
  | cons e rest ih =>
    obtain ⟨sc, el⟩ := e
    have hrest : ∀ x ∈ rest, x.1 = 0 ∨ x.1 = 1 ∨ x.1 = 2 :=
      fun x hx => hsc x (List.mem_cons_of_mem _ hx)
    have hsc0 := hsc (sc, el) (List.mem_cons_self _ _)
    rw [unpackElems]
    rw [show ((sc, el) :: rest) = [(sc, el)] ++ rest from rfl, specKeywordContribs_append]
    rw [ih hrest, elemContrib_named w fd sc el hsc0]

/-- A comma operator leaf, as parso produces between arguments. -/
def commaLeaf : PNode := .leaf "operator" ","

/-- The `argument_node` parso hands to `TreeArguments` for a call with the
given comma-separated argument expressions: `None` for no arguments, the
expression itself for a single argument, an `arglist` node with comma
leaves interspersed otherwise. -/
def mkArglistNode : List PNode → Option PNode
  | [] => none
  | [e] => some e
  | es => some (.node "arglist" (es.intersperse commaLeaf))

/-- A plain positional expression: not an argument-list or keyword/starred
`argument` node and not one of the operator tokens the walk treats
specially. -/
def isPlainExpr (e : PNode) : Bool :=
  !(e.typ == "arglist") && !(e.typ == "testlist") && !(e.typ == "argument") &&
    !(e.eqOp ",") && !(e.eqOp "*") && !(e.eqOp "**")

/-- A comma child is skipped by the walk. -/
theorem unpackArglistChildren_cons_comma {c : PNode} (h : c.eqOp "," = true)
    (rest : List PNode) :
    unpackArglistChildren (c :: rest) = unpackArglistChildren rest := by
  rw [unpackArglistChildren.eq_def]
  simp only [h, if_true]

/-- A child that is none of the special tokens is a plain element. -/
theorem unpackArglistChildren_cons_plain {c : PNode} (h4 : c.eqOp "," = false)
    (h5 : c.eqOp "*" = false) (h6 : c.eqOp "**" = false) (hstar : isStarArgument c = false)
    (rest : List PNode) :
    unpackArglistChildren (c :: rest) = (0, c) :: unpackArglistChildren rest := by
  rw [unpackArglistChildren.eq_def]
  simp only [h4, h5, h6, hstar, Bool.or_self, Bool.false_eq_true, if_false]

/-- A plain expression contributes exactly one inline `LazyTreeValue`
pair. -/
theorem elemContrib_plain (w : World) (fd : Option String) (e : PNode)
    (h : isPlainExpr e = true) :
    elemContrib w fd 0 e = ([(none, Lazy.tree e)], [], []) := by
  rw [elemContrib, if_neg (by omega), if_neg (by omega)]
  unfold plainElemContrib
  split <;> simp_all [isPlainExpr, PNode.typ]

/-- The six flag facts packed inside `isPlainExpr`. -/
theorem isPlainExpr_facts {e : PNode} (h : isPlainExpr e = true) :
    ¬e.typ = "arglist" ∧ ¬e.typ = "testlist" ∧ ¬e.typ = "argument" ∧
      e.eqOp "," = false ∧ e.eqOp "*" = false ∧ e.eqOp "**" = false := by
  simpa [isPlainExpr, and_assoc] using h

/-- A plain expression is not a starred `argument` node. -/
theorem isPlainExpr_notStarArgument {e : PNode} (h : isPlainExpr e = true) :
    isStarArgument e = false := by
  simp [isStarArgument, (isPlainExpr_facts h).2.2.1]

/-- The child walk over plain expressions with commas interspersed yields
one star-free element per expression, in order. -/
theorem unpackArglistChildren_plain (exprs : List PNode)
    (h : ∀ e ∈ exprs, isPlainExpr e = true) :
    unpackArglistChildren (exprs.intersperse commaLeaf) = exprs.map (fun e => (0, e)) := by
  induction exprs with
  | nil => simp [unpackArglistChildren, List.intersperse]
  | cons a rest ih =>
    obtain ⟨_h1, _h2, _h3, h4, h5, h6⟩ := isPlainExpr_facts (h a (List.mem_cons_self _ _))
    have hstar := isPlainExpr_notStarArgument (h a (List.mem_cons_self _ _))
    rcases rest with _ | ⟨b, l⟩
    · rw [show ([a].intersperse commaLeaf) = [a] from by simp [List.intersperse]]
      rw [unpackArglistChildren_cons_plain h4 h5 h6 hstar]
      simp [unpackArglistChildren]
    · rw [List.intersperse_cons_cons]
      rw [unpackArglistChildren_cons_plain h4 h5 h6 hstar]
      rw [unpackArglistChildren_cons_comma (by simp [commaLeaf, PNode.eqOp])]
      rw [ih (fun e he => h e (List.mem_cons_of_mem _ he))]
      simp

/-- For a call whose arguments are all plain expressions, `unpack_arglist`
yields one star-free element per expression, in source order. -/
theorem unpackArglist_plain (exprs : List PNode)
    (h : ∀ e ∈ exprs, isPlainExpr e = true) :
    unpackArglist (mkArglistNode exprs) = exprs.map (fun e => (0, e)) := by
  rcases exprs with _ | ⟨a, rest⟩
  · simp [mkArglistNode, unpackArglist]
  · rcases rest with _ | ⟨b, l⟩
    · obtain ⟨h1, h2, _h3, _h4, _h5, _h6⟩ := isPlainExpr_facts (h a (List.mem_cons_self _ _))
      have hstar := isPlainExpr_notStarArgument (h a (List.mem_cons_self _ _))
      rw [show mkArglistNode [a] = some a from rfl, unpackArglist,
        if_neg (by simp [h1, h2, hstar])]
      simp
    · rw [show mkArglistNode (a :: b :: l) =
          some (.node "arglist" ((a :: b :: l).intersperse commaLeaf)) from rfl]
      rw [unpackArglist, if_pos (by simp [PNode.typ])]
      exact unpackArglistChildren_plain _ h

/-- The element walk over star-free plain elements yields one
`LazyTreeValue` pair each, with nothing buffered and nothing reported. -/
theorem unpackElems_plainMap (w : World) (fd : Option String) (exprs : List PNode)
    (h : ∀ e ∈ exprs, isPlainExpr e = true) :
    unpackElems w fd (exprs.map (fun e => (0, e))) =
      (exprs.map (fun e => ((none : Option String), Lazy.tree e)), [], []) := by
  induction exprs with
  | nil => simp [unpackElems]
  | cons a rest ih =>
    rw [List.map_cons, unpackElems, elemContrib_plain w fd a (h a (List.mem_cons_self _ _)),
      ih (fun e he => h e (List.mem_cons_of_mem _ he))]
    simp

/-- The pair/issue result of `unpack` for a given element list (the walk
plus the final keyword flush), so that results of full calls can be
compared across element lists. -/
def unpackFromElems (w : World) (funcdef : Option String) (elems : List (Nat × PNode)) :
    List (Option String × Lazy) × List Issue :=
  ((unpackElems w funcdef elems).1 ++
     (unpackElems w funcdef elems).2.1.map (fun p => (some p.1, p.2)),
   (unpackElems w funcdef elems).2.2)

/-- The function `unpack` is the element walk of its `unpack_arglist`
elements. -/
theorem unpack_eq_fromElems (w : World) (nodeOpt : Option PNode) (fd : Option String) :
    unpack w nodeOpt fd = unpackFromElems w fd (unpackArglist nodeOpt) := rfl

/-- A single-star element whose only inferred candidate has no iterable
capability contributes no pairs, buffers nothing, and reports exactly one
`type-error-star` issue when a callee signature is present. -/
theorem elemContrib_star_noniter (w : World) (f : String) (el : PNode) (v : Nat)
    (h1 : w.inferNode el = [v]) (h2 : w.getattrIter v = false) (h3 : w.pyIter v = none) :
    elemContrib w (some f) 1 el = ([], [], [mkStarIssue f el v]) := by
  rw [elemContrib, if_pos rfl, h1]
  simp [iterStar, h2, h3, zipLongestCols, maxLen]

/-- Without a callee signature `_iterate_star_args` reports nothing. -/
theorem iterStar_none_issues (w : World) (v : Nat) (el : PNode) :
    (iterStar w v el none).2 = [] := by
  rw [iterStar]
  by_cases h : w.getattrIter v = true <;> simp [h]

/-- Without a callee signature `_star_star_dict` reports nothing. -/
theorem starStarDict_none_issues (w : World) (v : Nat) (el : PNode) :
    (starStarDict w v el none).2 = [] := by
  rw [starStarDict]
  rcases h : w.ssKind v with _ | items | _ <;> simp

/-- A star-free element never reports an issue. -/
theorem plainElemContrib_issues (el : PNode) : (plainElemContrib el).2.2 = [] := by
  unfold plainElemContrib
  split <;> rfl

/-- Without a callee signature no element of the walk reports an issue. -/
theorem elemContrib_none_issues (w : World) (sc : Nat) (el : PNode) :
    (elemContrib w none sc el).2.2 = [] := by
  rw [elemContrib]
  by_cases h1 : sc = 1
  · rw [if_pos h1]
    simp only []
    rw [List.flatten_eq_nil_iff]
    intro l hl
    rw [List.map_map, List.mem_map] at hl
    obtain ⟨a, _, ha⟩ := hl
    rw [← ha]
    exact iterStar_none_issues w a el
  · rw [if_neg h1]
    by_cases h2 : sc = 2
    · rw [if_pos h2]
      simp only []
      rw [List.flatten_eq_nil_iff]
      intro l hl
      rw [List.map_map, List.mem_map] at hl
      obtain ⟨a, _, ha⟩ := hl
      rw [← ha]
      exact starStarDict_none_issues w a el
    · rw [if_neg h2]
      exact plainElemContrib_issues el

/-- Without a callee signature the whole walk reports no issues. -/
theorem unpackElems_none_issues (w : World) (elems : List (Nat × PNode)) :
    (unpackElems w none elems).2.2 = [] := by
  induction elems with
  | nil => rfl
  | cons e rest ih =>
    obtain ⟨sc, el⟩ := e
    rw [unpackElems]
    simp only []
    rw [elemContrib_none_issues, ih]
    rfl

set_option maxRecDepth 4096

/-- The spec string `"sep=None, maxsplit=-1"` crashes the clinic parser:
after consuming `sep`, the regex matches nothing at `"=None, …"` (its
grammar has no `=` defaults), which is the Python `AttributeError` on
`match.group(0)`. -/
theorem parse_sepmaxsplit : parseArgumentClinic "sep=None, maxsplit=-1" = none := by
  rw [parseArgumentClinic]
  rw [parseClinicLoop_step (by decide)
    (show matchClinic "sep=None, maxsplit=-1".data = some ⟨false, some (0, "sep"), 3⟩ by decide)]
  show (parseClinicLoop ("sep=None, maxsplit=-1".data.drop 3)
    (false || decide (0 < 0)) (false || false)).map _ = none
  rw [parseClinicLoop_crash (by decide) (by decide)]
  rfl

/-- The spec string `"$self, /, x, *, y"` crashes the clinic parser on its
very first `re.match`: neither `$` nor a bare `*` is in the regex's
grammar. -/
theorem parse_dollarself : parseArgumentClinic "$self, /, x, *, y" = none := by
  rw [parseArgumentClinic]
  exact parseClinicLoop_crash (by decide) (by decide)

/-- The bracket notation the parser does accept for two optional
parameters. -/
theorem parse_bracket_sep : parseArgumentClinic "[sep[, maxsplit]]" =
    some [⟨"sep", true, false, 0⟩, ⟨"maxsplit", true, false, 0⟩] := by
  rw [parseArgumentClinic]
  rw [parseClinicLoop_step (by decide)
    (show matchClinic "[sep[, maxsplit]]".data = some ⟨true, some (0, "sep"), 4⟩ by decide)]
  show (parseClinicLoop ("[sep[, maxsplit]]".data.drop 4)
    (false || decide (0 < 0)) (false || true)).map _ = _
  rw [parseClinicLoop_step (by decide)
    (show matchClinic ("[sep[, maxsplit]]".data.drop 4) =
      some ⟨true, some (0, "maxsplit"), 13⟩ by decide)]
  show ((parseClinicLoop (("[sep[, maxsplit]]".data.drop 4).drop 13) _ _).map _).map _ = _
  rw [show (("[sep[, maxsplit]]".data.drop 4).drop 13) = ([] : List Char) by decide]
  rw [parseClinicLoop_nil]
  rfl

/-- A parseable variant of the spec's stickiness example: after the slash,
`x` and the starred `y` are both keyword-allowed. -/
theorem parse_selfslash : parseArgumentClinic "self, /, x, *y" =
    some [⟨"self", false, false, 0⟩, ⟨"x", false, true, 0⟩, ⟨"y", false, true, 1⟩] := by
  rw [parseArgumentClinic]
  rw [parseClinicLoop_step (by decide)
    (show matchClinic "self, /, x, *y".data = some ⟨false, some (0, "self"), 4⟩ by decide)]
  show (parseClinicLoop ("self, /, x, *y".data.drop 4)
    (false || decide (0 < 0)) (false || false)).map _ = _
  rw [parseClinicLoop_step (by decide)
    (show matchClinic ("self, /, x, *y".data.drop 4) = some ⟨false, none, 3⟩ by decide)]
  show ((parseClinicLoop (("self, /, x, *y".data.drop 4).drop 3) true (false || false)).map _) = _
  rw [parseClinicLoop_step (by decide)
    (show matchClinic (("self, /, x, *y".data.drop 4).drop 3) =
      some ⟨false, some (0, "x"), 3⟩ by decide)]
  show (((parseClinicLoop ((("self, /, x, *y".data.drop 4).drop 3).drop 3)
    (true || decide (0 < 0)) ((false || false) || false)).map _).map _) = _
  rw [parseClinicLoop_step (by decide)
    (show matchClinic ((("self, /, x, *y".data.drop 4).drop 3).drop 3) =
      some ⟨false, some (1, "y"), 4⟩ by decide)]
  show ((((parseClinicLoop (((("self, /, x, *y".data.drop 4).drop 3).drop 3).drop 4)
    ((true || decide (0 < 0)) || decide (0 < 1))
    (((false || false) || false) || false)).map _).map _).map _) = _
  rw [show (((("self, /, x, *y".data.drop 4).drop 3).drop 3).drop 4) = ([] : List Char) by decide]
  rw [parseClinicLoop_nil]
  rfl

/-- C1: for every argument list unpacked by `TreeArguments.unpack`, every
keyword-argument pair (`name=expr`) is yielded after all positional,
star-expanded and comprehension contributions (the inline stream of the
element walk), and the keyword pairs appear in their original left-to-right
source order relative to each other, regardless of where they occurred
lexically in the argument list. -/
theorem claim_unpack_keyword_reordering (w : World) (fd : Option String) (nodeOpt : Option PNode) :
    (unpack w nodeOpt fd).1 =
      (unpackElems w fd (unpackArglist nodeOpt)).1 ++
        (specKeywordContribs (unpackArglist nodeOpt)).map (fun p => (some p.1, p.2)) := by
  rw [unpack_eq_fromElems, unpackFromElems]
  rw [unpackElems_named w fd _ (unpackArglist_starCounts nodeOpt)]

/-- C9: for every call-argument list containing only plain positional
expressions, `TreeArguments.unpack` yields exactly one `(None, LazyValue)`
pair per expression, in source order, and reports no issue. -/
theorem claim_unpack_plain_positional (w : World) (fd : Option String) (exprs : List PNode)
    (h : ∀ e ∈ exprs, isPlainExpr e = true) :
    unpack w (mkArglistNode exprs) fd =
      (exprs.map (fun e => ((none : Option String), Lazy.tree e)), ([] : List Issue)) := by
  rw [unpack_eq_fromElems, unpackFromElems, unpackArglist_plain exprs h,
    unpackElems_plainMap w fd exprs h]
  simp

/-- A world in which nothing is inferable, for concrete instantiation. -/
def trivialWorld : World :=
  ⟨fun _ => [], fun _ => false, fun _ => none, fun _ => SSKind.other⟩

/-- Witness for C9 at the two-argument call `f(a, 1)`. -/
theorem claim_unpack_plain_positional_witness :
    (∀ e ∈ [PNode.leaf "name" "a", PNode.leaf "number" "1"], isPlainExpr e = true) ∧
    unpack trivialWorld (mkArglistNode [PNode.leaf "name" "a", PNode.leaf "number" "1"]) none =
      ([(none, Lazy.tree (PNode.leaf "name" "a")),
        (none, Lazy.tree (PNode.leaf "number" "1"))], []) :=
  ⟨by decide, claim_unpack_plain_positional trivialWorld none _ (by decide)⟩

/-- C2: a single-star expansion whose single inferred candidate lacks the
iterable capability contributes no `(key, LazyValue)` entries, reports
exactly one `type-error-star` issue (when a callee signature is supplied),
and unpacking of the remaining arguments continues: the pair stream is the
one of the argument list with that element removed, and the issue stream is
the surrounding elements' issues with exactly the one star issue between
them. -/
theorem claim_star_noniterable_contribution (w : World) (f : String) (nodeOpt : Option PNode)
    (pre suf : List (Nat × PNode)) (el : PNode) (v : Nat)
    (hsplit : unpackArglist nodeOpt = pre ++ (1, el) :: suf)
    (h1 : w.inferNode el = [v]) (h2 : w.getattrIter v = false) (h3 : w.pyIter v = none) :
    (unpack w nodeOpt (some f)).1 = (unpackFromElems w (some f) (pre ++ suf)).1 ∧
    (unpack w nodeOpt (some f)).2 =
      (unpackElems w (some f) pre).2.2 ++
        mkStarIssue f el v :: (unpackElems w (some f) suf).2.2 := by
  have hsingle : unpackElems w (some f) [(1, el)] = ([], [], [mkStarIssue f el v]) := by
    rw [unpackElems, unpackElems, elemContrib_star_noniter w f el v h1 h2 h3]
    simp
  have hmid : pre ++ (1, el) :: suf = pre ++ ([(1, el)] ++ suf) := by simp
  constructor
  · rw [unpack_eq_fromElems, hsplit, hmid, unpackFromElems, unpackFromElems]
    rw [unpackElems_append, unpackElems_append, hsingle, unpackElems_append]
    simp
  · rw [unpack_eq_fromElems, hsplit, hmid, unpackFromElems]
    rw [unpackElems_append, unpackElems_append, hsingle]
    simp

/-- An `argument` node `*xs`. -/
def starXsNode : PNode := .node "argument" [.leaf "operator" "*", .leaf "name" "xs"]

/-- The argument list of `f(*xs, y)`. -/
def starArglistNode : PNode := .node "arglist" [starXsNode, commaLeaf, .leaf "name" "y"]

/-- A world in which `xs` infers to the single non-iterable value `5`. -/
def starWorld : World :=
  ⟨fun nd => match nd with
             | .leaf "name" "xs" => [5]
             | _ => [],
   fun _ => false, fun _ => none, fun _ => SSKind.other⟩

/-- Witness for C2 at the call `f(*xs, y)` with `xs` inferring to a single
non-iterable value. -/
theorem claim_star_noniterable_contribution_witness :
    unpackArglist (some starArglistNode) =
      [] ++ (1, PNode.leaf "name" "xs") :: [(0, PNode.leaf "name" "y")] ∧
    (unpack starWorld (some starArglistNode) (some "split")).1 =
      [(none, Lazy.tree (PNode.leaf "name" "y"))] ∧
    (unpack starWorld (some starArglistNode) (some "split")).2 =
      [mkStarIssue "split" (PNode.leaf "name" "xs") 5] := by
  refine ⟨rfl, ?_, ?_⟩
  · exact (claim_star_noniterable_contribution starWorld "split" (some starArglistNode)
      [] [(0, PNode.leaf "name" "y")] (PNode.leaf "name" "xs") 5 rfl rfl rfl rfl).1
  · exact (claim_star_noniterable_contribution starWorld "split" (some starArglistNode)
      [] [(0, PNode.leaf "name" "y")] (PNode.leaf "name" "xs") 5 rfl rfl rfl rfl).2

/-- C3: for a double-star expansion candidate, a dictionary with exactly
enumerable key items contributes one `(key, value)` pair per item; a
native/opaque `dict` instance contributes nothing and no issue; any other
candidate contributes nothing with exactly one `type-error-star-star`
issue (when a callee signature is supplied); and inside `unpack` the
`star_count == 2` branch concatenates exactly these per-candidate
contributions. -/
theorem claim_starstar_dict_expansion (w : World) (fd : Option String) (f : String)
    (v : Nat) (el : PNode) :
    (∀ items, w.ssKind v = .dictSequence items → starStarDict w v el fd = (items, [])) ∧
    (w.ssKind v = .compiledDictInstance → starStarDict w v el fd = ([], [])) ∧
    (w.ssKind v = .other → starStarDict w v el (some f) = ([], [mkSSIssue f el v])) ∧
    elemContrib w fd 2 el =
      (((w.inferNode el).map
          (fun d => (starStarDict w d el fd).1.map (fun p => (some p.1, p.2)))).flatten,
       [],
       ((w.inferNode el).map (fun d => (starStarDict w d el fd).2)).flatten) := by
  refine ⟨fun items h => by rw [starStarDict.eq_def, h],
    fun h => by rw [starStarDict.eq_def, h],
    fun h => by rw [starStarDict.eq_def, h],
    ?_⟩
  rw [elemContrib, if_neg (by omega), if_pos rfl]
  simp [List.map_map, Function.comp_def]

/-- A world in which value `7` is a dict sequence with keys `a`, `b` and
value `9` is neither dictionary-like nor a `dict` instance. -/
def dictWorld : World :=
  ⟨fun _ => [7], fun _ => false, fun _ => none,
   fun v => if v = 7 then SSKind.dictSequence [("a", Lazy.ext 0), ("b", Lazy.ext 1)]
            else SSKind.other⟩

/-- Witness for C3: the dict-sequence candidate `7` expands to its two
items and the opaque candidate `9` yields one star-star issue. -/
theorem claim_starstar_dict_expansion_witness :
    dictWorld.ssKind 7 = SSKind.dictSequence [("a", Lazy.ext 0), ("b", Lazy.ext 1)] ∧
    starStarDict dictWorld 7 (PNode.leaf "name" "d") (some "update") =
      ([("a", Lazy.ext 0), ("b", Lazy.ext 1)], []) ∧
    dictWorld.ssKind 9 = SSKind.other ∧
    starStarDict dictWorld 9 (PNode.leaf "name" "d") (some "update") =
      ([], [mkSSIssue "update" (PNode.leaf "name" "d") 9]) :=
  ⟨rfl,
   (claim_starstar_dict_expansion dictWorld (some "update") "update" 7 (PNode.leaf "name" "d")).1
     _ rfl,
   rfl,
   (claim_starstar_dict_expansion dictWorld (some "update") "update" 9
     (PNode.leaf "name" "d")).2.2.1 rfl⟩

/-- C10: the star and star-star type errors are only reported when a
callee signature (`funcdef`) is passed to `unpack`: without one, the whole
of `unpack` reports no issues at all, and a non-iterable single-star
target or non-mapping double-star target still contributes zero
entries. -/
theorem claim_issues_need_funcdef (w : World) (nodeOpt : Option PNode) (v : Nat) (el : PNode) :
    (unpack w nodeOpt none).2 = [] ∧
    (iterStar w v el none).2 = [] ∧
    (starStarDict w v el none).2 = [] ∧
    (w.getattrIter v = false → w.pyIter v = none → iterStar w v el none = ([], [])) ∧
    (w.ssKind v = .other → starStarDict w v el none = ([], [])) := by
  refine ⟨unpackElems_none_issues w _, iterStar_none_issues w v el,
    starStarDict_none_issues w v el, ?_, fun h => by rw [starStarDict.eq_def, h]⟩
  intro h2 h3
  rw [iterStar, h3]
  simp [h2]

/-- Witness for C10: the non-iterable star target of `starWorld` and an
opaque star-star target contribute nothing and report nothing when no
callee signature is given. -/
theorem claim_issues_need_funcdef_witness :
    starWorld.getattrIter 5 = false ∧ starWorld.pyIter 5 = none ∧
    iterStar starWorld 5 (PNode.leaf "name" "xs") none = ([], []) ∧
    starWorld.ssKind 5 = SSKind.other ∧
    starStarDict starWorld 5 (PNode.leaf "name" "xs") none = ([], []) ∧
    (unpack starWorld (some starArglistNode) none).2 = [] :=
  ⟨rfl, rfl,
   (claim_issues_need_funcdef starWorld (some starArglistNode) 5
     (PNode.leaf "name" "xs")).2.2.2.1 rfl rfl,
   rfl,
   (claim_issues_need_funcdef starWorld (some starArglistNode) 5
     (PNode.leaf "name" "xs")).2.2.2.2 rfl,
   (claim_issues_need_funcdef starWorld (some starArglistNode) 5
     (PNode.leaf "name" "xs")).1⟩

/-- C4 counterexample: clinic matching of the spec
`"sep=None, maxsplit=-1"` neither yields two value sets on zero supplied
arguments nor raises `ParamIssue` on three positional arguments — in both
cases the spec string itself already crashes `_parse_argument_clinic`
(`AttributeError`: its regex does not accept `=` defaults), before any
matching happens. -/
theorem claim_clinic_sepmaxsplit_cex :
    runArgumentClinic "sep=None, maxsplit=-1" [] = .error .attributeError ∧
    runArgumentClinic "sep=None, maxsplit=-1" [(none, [1]), (none, [2]), (none, [3])] =
      .error .attributeError := by
  constructor <;> rw [runArgumentClinic, parse_sepmaxsplit]

/-- C4 amended: the spec string `"sep=None, maxsplit=-1"` is rejected by
the clinic parser (the `AttributeError` crash), so matching it neither
yields value sets nor raises `ParamIssue`; with the bracket notation
`"[sep[, maxsplit]]"` — the parser's actual syntax for two optional
parameters — matching zero supplied arguments yields two empty value sets
without raising, and an extra positional argument beyond the two declared
parameters is silently ignored rather than raising `ParamIssue`. -/
theorem claim_clinic_sepmaxsplit_amended :
    runArgumentClinic "sep=None, maxsplit=-1" [] = .error .attributeError ∧
    parseArgumentClinic "[sep[, maxsplit]]" =
      some [⟨"sep", true, false, 0⟩, ⟨"maxsplit", true, false, 0⟩] ∧
    runArgumentClinic "[sep[, maxsplit]]" [] = .ok [.set [], .set []] ∧
    runArgumentClinic "[sep[, maxsplit]]" [(none, [1]), (none, [2]), (none, [3])] =
      .ok [.set [1], .set [2]] := by
  refine ⟨by rw [runArgumentClinic, parse_sepmaxsplit], parse_bracket_sep, ?_, ?_⟩
  · rw [runArgumentClinic, parse_bracket_sep]
    rfl
  · rw [runArgumentClinic, parse_bracket_sep]
    rfl

/-- C5 counterexample: the spec's stickiness example `"$self, /, x, *, y"`
is not parseable at all — the first `re.match` fails on `$` (and a bare
`*` separator would fail likewise), so no parameter flags are produced for
it. -/
theorem claim_clinic_sticky_cex :
    parseArgumentClinic "$self, /, x, *, y" = none := parse_dollarself

/-- C5 amended: keyword-acceptance and optionality are sticky in
`_parse_argument_clinic` — after a slash match every parameter of the rest
of the parse is keyword-allowed, after a parameter with the optional
bracket captured every parameter from it on is optional, and after a
starred parameter every following parameter is keyword-allowed; the spec's
example `"$self, /, x, *, y"` is rejected by the parser, and the parseable
variant `"self, /, x, *y"` marks both `x` and `y` keyword-allowed. -/
theorem claim_clinic_sticky_amended :
    (∀ s (m : ClinicMatch) (kw opt : Bool) ps, s ≠ [] → matchClinic s = some m →
      m.group2 = none → parseClinicLoop s kw opt = some ps →
      ∀ q ∈ ps, q.allow_kwargs = true) ∧
    (∀ s (m : ClinicMatch) (kw opt : Bool) stars word ps, s ≠ [] → matchClinic s = some m →
      m.group2 = some (stars, word) → m.group1 = true →
      parseClinicLoop s kw opt = some ps →
      ∀ q ∈ ps, q.optional = true) ∧
    (∀ s (m : ClinicMatch) (kw opt : Bool) stars word ps, s ≠ [] → matchClinic s = some m →
      m.group2 = some (stars, word) → 0 < stars →
      parseClinicLoop s kw opt = some ps →
      ∀ q ∈ ps.tail, q.allow_kwargs = true) ∧
    parseArgumentClinic "self, /, x, *y" =
      some [⟨"self", false, false, 0⟩, ⟨"x", false, true, 0⟩, ⟨"y", false, true, 1⟩] := by
  refine ⟨?_, ?_, ?_, parse_selfslash⟩
  · intro s m kw opt ps hne hm hg h
    rw [parseClinicLoop_step hne hm, hg] at h
    exact parseClinicLoop_kwAll h rfl
  · intro s m kw opt stars word ps hne hm hg hg1 h
    rw [parseClinicLoop_step hne hm, hg] at h
    rw [Option.map_eq_some'] at h
    obtain ⟨ps', hrec, hcons⟩ := h
    subst hcons
    intro q hq
    rcases List.mem_cons.mp hq with hq | hq
    · subst hq
      simp [hg1]
    · exact parseClinicLoop_optAll hrec (by simp [hg1]) q hq
  · intro s m kw opt stars word ps hne hm hg hstars h
    rw [parseClinicLoop_step hne hm, hg] at h
    rw [Option.map_eq_some'] at h
    obtain ⟨ps', hrec, hcons⟩ := h
    subst hcons
    intro q hq
    exact parseClinicLoop_kwAll hrec (by simp [hstars]) q hq

/-- Witness for the amended C5: the slash-stickiness conjunct applied to
the concrete remainder `", /, x"`. -/
theorem claim_clinic_sticky_amended_witness :
    matchClinic ", /, x".data = some ⟨false, none, 3⟩ ∧
    parseClinicLoop ", /, x".data false false = some [⟨"x", false, true, 0⟩] ∧
    ∀ q ∈ [ClinicParam.mk "x" false true 0], q.allow_kwargs = true := by
  have hparse : parseClinicLoop ", /, x".data false false = some [⟨"x", false, true, 0⟩] := by
    rw [parseClinicLoop_step (by decide)
      (show matchClinic ", /, x".data = some ⟨false, none, 3⟩ by decide)]
    show parseClinicLoop (", /, x".data.drop 3) true false = _
    rw [parseClinicLoop_step (by decide)
      (show matchClinic (", /, x".data.drop 3) = some ⟨false, some (0, "x"), 3⟩ by decide)]
    show (parseClinicLoop ((", /, x".data.drop 3).drop 3)
      (true || decide (0 < 0)) (false || false)).map _ = _
    rw [show ((", /, x".data.drop 3).drop 3) = ([] : List Char) by decide, parseClinicLoop_nil]
    rfl
  exact ⟨by decide, hparse,
    claim_clinic_sticky_amended.1 ", /, x".data ⟨false, none, 3⟩ false false
      [⟨"x", false, true, 0⟩] (by decide) (by decide) rfl hparse⟩

/-- C6: whenever clinic matching raises `ParamIssue`, the decorator around
the modelled function catches it and returns the empty value set instead
of calling the wrapped function (whatever that function would return);
`ParamIssue` never escapes the decorator boundary. -/
theorem claim_paramissue_caught (params : List ClinicParam)
    (func : List ClinicYield → List Nat) (args : List (Option String × List Nat)) :
    (iterateArgumentClinic params args = .error .paramIssue →
      repackWrapperCore params func args = .ok []) ∧
    repackWrapperCore params func args ≠ .error .paramIssue := by
  constructor
  · intro h
    rw [repackWrapperCore.eq_def, h]
  · rw [repackWrapperCore.eq_def]
    rcases h : iterateArgumentClinic params args with e | ys
    · rcases e <;> simp
    · simp

/-- Witness for C6: a one-parameter non-optional clinic spec against zero
arguments raises `ParamIssue`, and the decorator converts it to the empty
value set instead of the wrapped function's `[7]`. -/
theorem claim_paramissue_caught_witness :
    iterateArgumentClinic [⟨"x", false, false, 0⟩] [] = .error .paramIssue ∧
    repackWrapperCore [⟨"x", false, false, 0⟩] (fun _ => [7]) [] = .ok [] :=
  ⟨rfl, (claim_paramissue_caught [⟨"x", false, false, 0⟩] (fun _ => [7]) []).1 rfl⟩

/-- C7: `try_iter_content` terminates on every input (the function below is
total over arbitrary worlds, including self-referential ones); its body
never runs at a depth beyond the ceiling 10, and a call already past the
ceiling does nothing and returns silently. -/
theorem claim_try_iter_content_ceiling (w : IterWorld) (types : List Nat) (depth : Nat) :
    (∀ d ∈ tryIterDepths w types depth, d ≤ 10) ∧
    (10 < depth → tryIterDepths w types depth = []) :=
  ⟨tryIterDepths_le w types depth, fun h => tryIterDepths_stop h⟩

/-- A world with a single value whose iteration yields itself. -/
def selfIterWorld : IterWorld := ⟨fun _ => some [0], fun _ => [0]⟩

/-- Witness for C7 on the self-referential world: the descent from depth 0
visits exactly the depths 0 through 10 and stops, every visited depth is
within the ceiling, and a call past the ceiling does nothing. -/
theorem claim_try_iter_content_ceiling_witness :
    tryIterDepths selfIterWorld [0] 0 = [0, 1, 2, 3, 4, 5, 6, 7, 8, 9, 10] ∧
    10 ∈ tryIterDepths selfIterWorld [0] 0 ∧ 10 ≤ 10 ∧
    tryIterDepths selfIterWorld [0] 11 = [] := by
  have heval : tryIterDepths selfIterWorld [0] 0 = [0, 1, 2, 3, 4, 5, 6, 7, 8, 9, 10] := by
    simp [tryIterDepths_go, tryIterDepths_stop, selfIterWorld]
  have hmem : 10 ∈ tryIterDepths selfIterWorld [0] 0 := by
    rw [heval]
    decide
  exact ⟨heval, hmem,
    (claim_try_iter_content_ceiling selfIterWorld [0] 0).1 10 hmem,
    (claim_try_iter_content_ceiling selfIterWorld [0] 11).2 (by omega)⟩

/-- C8: `get_calling_nodes` terminates on every chain of variadic-argument
forwarding (the walk below is total, bounded by the visited set); on a
chain of three forwarded `*args` call sites it returns the single original
call site at the head of the chain, and on a cyclic chain it stops at the
revisited identity and returns its provenance node — a well-defined,
non-crashing result. -/
theorem claim_calling_nodes_chain {n : Nat} (w : CallWorld n) (a b c : Fin n) :
    (∀ nd, w.isTree a = true → w.isTree b = true → w.isTree c = true →
      innerStep w a = .advance b → innerStep w b = .advance c →
      innerStep w c = .fallthrough →
      a ≠ b → a ≠ c → b ≠ c → w.argumentNode c = some nd →
      getCallingNodes w a = [(w.ctx c, nd)]) ∧
    (w.isTree a = true → w.isTree b = true →
      innerStep w a = .advance b → innerStep w b = .advance a → a ≠ b →
      getCallingNodes w a = finishNodes w a) := by
  constructor
  · intro nd hta htb htc hab hbc hcf hne1 hne2 hne3 hnd
    rw [getCallingNodes, gcnLoop_advance (by simp) hta hab,
      gcnLoop_advance (by simp [Ne.symm hne1]) htb hbc,
      gcnLoop_fallthrough (by simp [Ne.symm hne2, Ne.symm hne3]) htc hcf,
      finishNodes.eq_def, hnd]
  · intro hta htb hab hba hne
    rw [getCallingNodes, gcnLoop_advance (by simp) hta hab,
      gcnLoop_advance (by simp [Ne.symm hne]) htb hba,
      gcnLoop_visited (by simp)]

/-- The provenance node used by the chain worlds below: a bare argument
list consisting of one plain name. -/
def originNode : PNode := PNode.leaf "name" "origin"

/-- A three-identity world: identity 0 forwards `*args` to identity 1,
which forwards to identity 2, the original call site. -/
def chainWorld : CallWorld 3 :=
  ⟨fun _ => true,
   fun i => if i.val = 2 then some originNode else some starXsNode,
   fun _ => none,
   fun i => i.val,
   fun i _ => if i.val = 0 then .varArgs 1 else if i.val = 1 then .varArgs 2 else .noVarArgs⟩

/-- A two-identity world in which 0 and 1 forward to each other. -/
def cycleWorld : CallWorld 2 :=
  ⟨fun _ => true,
   fun _ => some starXsNode,
   fun _ => none,
   fun i => i.val,
   fun i _ => if i.val = 0 then .varArgs 1 else .varArgs 0⟩

/-- Witness for C8: the three-step chain returns the head call site, and
the two-identity cycle terminates with identity 0's own provenance. -/
theorem claim_calling_nodes_chain_witness :
    innerStep chainWorld 0 = .advance 1 ∧ innerStep chainWorld 1 = .advance 2 ∧
    innerStep chainWorld 2 = .fallthrough ∧
    getCallingNodes chainWorld 0 = [(2, originNode)] ∧
    innerStep cycleWorld 0 = .advance 1 ∧ innerStep cycleWorld 1 = .advance 0 ∧
    getCallingNodes cycleWorld 0 = finishNodes cycleWorld 0 := by
  refine ⟨rfl, rfl, rfl, ?_, rfl, rfl, ?_⟩
  · exact (claim_calling_nodes_chain chainWorld 0 1 2).1 originNode rfl rfl rfl rfl rfl rfl
      (by decide) (by decide) (by decide) rfl
  · exact (claim_calling_nodes_chain cycleWorld 0 1 0).2 rfl rfl rfl rfl (by decide)
